import Mathlib

/-!
# StoppingPowerSimulation: lattice builder, trajectory simulator, prediction client

A shallow embedding of `src/main.js`.

Number model.  JavaScript numbers are modelled as exact rationals (`ℚ`), so the
theorems below speak about the arithmetic the program performs, not about
IEEE-754 rounding.  The two non-finite values the program writes down itself
(`Infinity`, `-Infinity`, the initial bounding-box corners) are kept in the
separate type `Bound`.  `Math.sqrt` is not a rational function; it is taken as a
parameter `sqrt : ℚ → ℚ` of every operation that calls it, and each theorem
states what it needs from it at the point where it is used.

`parseFloat` of a text field is modelled by the value it yields: position fields
hold an `Option ℚ` (`none` is `NaN`, which the program guards against
explicitly), velocity fields and the speed slider hold a number (text that does
not parse in those fields is outside the model).  The methods of `THREE.Vector3`
are written out as three.js defines them.
-/

set_option autoImplicit false

namespace StoppingPower

/-! ## Vectors (the part of `THREE.Vector3` the program uses) -/

/-- A `THREE.Vector3` with finite components. -/
structure Vector3 where
  x : ℚ
  y : ℚ
  z : ℚ
deriving DecidableEq

namespace Vector3

/-- `new THREE.Vector3()`. -/
def zero : Vector3 := ⟨0, 0, 0⟩

/-- `Vector3.add`: component-wise sum. -/
def add (a b : Vector3) : Vector3 := ⟨a.x + b.x, a.y + b.y, a.z + b.z⟩

/-- `Vector3.multiplyScalar`. -/
def multiplyScalar (a : Vector3) (s : ℚ) : Vector3 := ⟨a.x * s, a.y * s, a.z * s⟩

/-- `Vector3.divideScalar(s)`, which three.js computes as `multiplyScalar(1 / s)`. -/
def divideScalar (a : Vector3) (s : ℚ) : Vector3 := a.multiplyScalar (1 / s)

/-- `Vector3.lengthSq`. -/
def lengthSq (a : Vector3) : ℚ := a.x * a.x + a.y * a.y + a.z * a.z

/-- `Vector3.length`: `Math.sqrt(x*x + y*y + z*z)`. -/
def length (sqrt : ℚ → ℚ) (a : Vector3) : ℚ := sqrt a.lengthSq

/-- `Vector3.normalize`: `divideScalar(length() || 1)`. -/
def normalize (sqrt : ℚ → ℚ) (a : Vector3) : Vector3 :=
  a.divideScalar (if a.length sqrt = 0 then 1 else a.length sqrt)

/-- `Vector3.distanceToSquared`. -/
def distanceToSquared (a b : Vector3) : ℚ :=
  (a.x - b.x) * (a.x - b.x) + (a.y - b.y) * (a.y - b.y) + (a.z - b.z) * (a.z - b.z)

/-- `Vector3.distanceTo`: `Math.sqrt(distanceToSquared(v))`. -/
def distanceTo (sqrt : ℚ → ℚ) (a b : Vector3) : ℚ := sqrt (a.distanceToSquared b)

end Vector3

/-! ## Bounding-box corners, which start at `±Infinity` -/

/-- A number that may be `-Infinity` or `Infinity`. -/
inductive Bound where
  | negInf : Bound
  | fin (q : ℚ) : Bound
  | posInf : Bound
deriving DecidableEq

namespace Bound

/-- `Math.min` on a bound and a finite number. -/
def minFin : Bound → ℚ → Bound
  | negInf, _ => negInf
  | fin a, q => fin (min a q)
  | posInf, q => fin q

/-- `Math.max` on a bound and a finite number. -/
def maxFin : Bound → ℚ → Bound
  | negInf, q => fin q
  | fin a, q => fin (max a q)
  | posInf, _ => posInf

/-- The order `≤` of JavaScript numbers restricted to bounds. -/
def le : Bound → Bound → Prop
  | negInf, _ => True
  | fin _, negInf => False
  | fin a, fin b => a ≤ b
  | fin _, posInf => True
  | posInf, negInf => False
  | posInf, fin _ => False
  | posInf, posInf => True

instance (a b : Bound) : Decidable (le a b) := by
  cases a <;> cases b <;> simp only [le] <;> infer_instance

end Bound

/-- A `THREE.Vector3` whose components may be infinite (`minBound`, `maxBound`). -/
structure BoundVec where
  x : Bound
  y : Bound
  z : Bound
deriving DecidableEq

namespace BoundVec

/-- `Vector3.min(v)`: component-wise `Math.min` with a finite vector. -/
def min (b : BoundVec) (v : Vector3) : BoundVec :=
  ⟨b.x.minFin v.x, b.y.minFin v.y, b.z.minFin v.z⟩

/-- `Vector3.max(v)`: component-wise `Math.max` with a finite vector. -/
def max (b : BoundVec) (v : Vector3) : BoundVec :=
  ⟨b.x.maxFin v.x, b.y.maxFin v.y, b.z.maxFin v.z⟩

/-- The vector as a finite `Vector3`, when every component is finite. -/
def toVector3 (b : BoundVec) : Option Vector3 :=
  match b.x, b.y, b.z with
  | Bound.fin x, Bound.fin y, Bound.fin z => some ⟨x, y, z⟩
  | _, _, _ => none

end BoundVec

/-! ## Lattice builder (`main.js` lines 33-77) -/

/-- `const unitCellSize = 2`. -/
def unitCellSize : ℚ := 2

/-- `const latticeSize = 5`. -/
def latticeSize : ℕ := 5

/-- `const latticeOffset = (latticeSize * unitCellSize) / 2`, for lattice size `n`
and unit size `u`. -/
def latticeOffset (u : ℚ) (n : ℕ) : ℚ := ((n : ℚ) * u) / 2

/-- What lattice construction mutates: the spheres added to the scene (their
positions, in insertion order) and the two running bounding-box corners. -/
structure Lattice where
  atoms : List Vector3
  minBound : BoundVec
  maxBound : BoundVec
deriving DecidableEq

/-- The state before the build: no atom, `minBound = (Infinity, Infinity, Infinity)`,
`maxBound = (-Infinity, -Infinity, -Infinity)`. -/
def Lattice.initial : Lattice :=
  { atoms := []
    minBound := ⟨Bound.posInf, Bound.posInf, Bound.posInf⟩
    maxBound := ⟨Bound.negInf, Bound.negInf, Bound.negInf⟩ }

/-- `createAtom(x, y, z)`: adds a sphere at `(x, y, z)` and folds its position into
both bounds. -/
def createAtom (x y z : ℚ) (st : Lattice) : Lattice :=
  { atoms := st.atoms ++ [⟨x, y, z⟩]
    minBound := st.minBound.min ⟨x, y, z⟩
    maxBound := st.maxBound.max ⟨x, y, z⟩ }

/-- The array `positions` of `createFCCUnitCell`, in source order. -/
def positions : List (ℚ × ℚ × ℚ) :=
  [ (0, 0, 0), (1, 0, 0), (0, 1, 0), (0, 0, 1),
    (1, 1, 0), (1, 0, 1), (0, 1, 1), (1, 1, 1),
    (1/2, 1/2, 0), (1/2, 0, 1/2), (0, 1/2, 1/2),
    (1, 1/2, 1/2), (1/2, 1, 1/2), (1/2, 1/2, 1) ]

/-- `createFCCUnitCell(origin)` for unit size `u`: one `createAtom` per entry of
`positions`. -/
def createFCCUnitCell (u : ℚ) (origin : ℚ × ℚ × ℚ) (st : Lattice) : Lattice :=
  positions.foldl
    (fun st p => createAtom (origin.1 + p.1 * u) (origin.2.1 + p.2.1 * u) (origin.2.2 + p.2.2 * u) st)
    st

/-- The cell origin the build loop passes for loop indices `(x, y, z)`. -/
def cellOrigin (u : ℚ) (n : ℕ) (x y z : ℕ) : ℚ × ℚ × ℚ :=
  ( (x : ℚ) * u - latticeOffset u n + u / 2,
    (y : ℚ) * u - latticeOffset u n + u / 2,
    (z : ℚ) * u - latticeOffset u n + u / 2 )

/-- The build loop: `for x < n, for y < n, for z < n: createFCCUnitCell([...])`,
run from the initial state. -/
def buildLattice (u : ℚ) (n : ℕ) : Lattice :=
  (List.range n).foldl
    (fun st x => (List.range n).foldl
      (fun st y => (List.range n).foldl
        (fun st z => createFCCUnitCell u (cellOrigin u n x y z) st) st) st)
    Lattice.initial

/-- `center = (minBound + maxBound) * 0.5`, when both corners are finite. -/
def Lattice.center (st : Lattice) : Option Vector3 :=
  match st.minBound.toVector3, st.maxBound.toVector3 with
  | some lo, some hi => some ((lo.add hi).multiplyScalar (1/2))
  | _, _ => none

/-! ### The point set the lattice is meant to contain -/

/-- The 8 corners of the unit cube. -/
def cubeCorners : List (ℚ × ℚ × ℚ) :=
  [0, 1].flatMap fun a => [0, 1].flatMap fun b => [0, 1].map fun c => (a, b, c)

/-- The 6 face centres of the unit cube: for each axis, the centres of the two
faces orthogonal to it. -/
def faceCentres : List (ℚ × ℚ × ℚ) :=
  [0, 1].flatMap fun a => [(a, 1/2, 1/2), (1/2, a, 1/2), (1/2, 1/2, a)]

/-- The 14 points of an FCC unit cell of edge `u` whose corner is `origin`:
origin plus `u` times each corner and face-centre offset. -/
def cellPoints (u : ℚ) (origin : ℚ × ℚ × ℚ) : List Vector3 :=
  (cubeCorners ++ faceCentres).map fun d =>
    ⟨origin.1 + u * d.1, origin.2.1 + u * d.2.1, origin.2.2 + u * d.2.2⟩

/-- The atoms one call of `createFCCUnitCell` creates, in creation order. -/
def cellAtoms (u : ℚ) (origin : ℚ × ℚ × ℚ) : List Vector3 :=
  positions.map fun p => ⟨origin.1 + p.1 * u, origin.2.1 + p.2.1 * u, origin.2.2 + p.2.2 * u⟩

/-- The atoms of the whole lattice in creation order: cell by cell, in the order
of the three nested loops. -/
def latticeAtoms (u : ℚ) (n : ℕ) : List Vector3 :=
  (List.range n).flatMap fun x => (List.range n).flatMap fun y =>
    (List.range n).flatMap fun z => cellAtoms u (cellOrigin u n x y z)

/-- `b` is the least element of the list `xs`. -/
def IsMinOf (b : Bound) (xs : List ℚ) : Prop :=
  ∃ m, b = Bound.fin m ∧ m ∈ xs ∧ ∀ x ∈ xs, m ≤ x

/-- `b` is the greatest element of the list `xs`. -/
def IsMaxOf (b : Bound) (xs : List ℚ) : Prop :=
  ∃ m, b = Bound.fin m ∧ m ∈ xs ∧ ∀ x ∈ xs, x ≤ m

/-- Running `createAtom` over a list of points. -/
def addAtoms (ps : List Vector3) (st : Lattice) : Lattice :=
  ps.foldl (fun st p => createAtom p.x p.y p.z st) st

/-! ## Simulator state and handlers (`main.js` lines 98-292) -/

/-- The module-level constants the handlers read after the lattice is built:
`unitCellSize`, `latticeSize`, `minBound` and `center`. -/
structure Env where
  unitCellSize : ℚ
  latticeSize : ℕ
  minBound : Vector3
  center : Vector3
deriving DecidableEq

/-- The constants produced by building a lattice of unit size `u` and size `n`,
when the bounding box is finite. -/
def mkEnv (u : ℚ) (n : ℕ) : Option Env :=
  match (buildLattice u n).minBound.toVector3, (buildLattice u n).center with
  | some lo, some c => some ⟨u, n, lo, c⟩
  | _, _ => none

/-- What a result region shows.  The HTML the program writes is abstracted to the
kind of message and the value it carries. -/
inductive Display where
  /-- `innerHTML = ""`. -/
  | empty : Display
  /-- The "Estimated Stopping Power" message with its disclaimer. -/
  | stoppingPower (value : ℚ) : Display
  /-- The red `Error: ${result.error}` message (`none` when the field is absent). -/
  | serviceError (error : Option String) : Display
  /-- The red `Request failed: ${err.message}` message. -/
  | requestFailed (message : String) : Display
deriving DecidableEq

/-- The body of the request sent to the prediction service. -/
structure Payload where
  start_pos : Option ℚ × Option ℚ × Option ℚ
  vdir : Vector3
  vmag : ℚ
deriving DecidableEq

/-- The parsed JSON body of a response: the fields the program looks at. -/
structure PredictionResult where
  stopping_power : Option ℚ
  error : Option String
deriving DecidableEq

/-- How a prediction request ends: a JSON body, or a rejection with a message. -/
inductive Outcome where
  | json (result : PredictionResult) : Outcome
  | failed (message : String) : Outcome
deriving DecidableEq

/-- The mutable state of the page: the proton, the trail, the form fields and the
two result regions.  (`trailGeometry`, the camera and the renderer are derived
from these and are not modelled.) -/
structure Sim where
  /-- `proton.position`. -/
  protonPosition : Vector3
  protonVelocity : Vector3
  protonActive : Bool
  trailPoints : List Vector3
  /-- `parseFloat(inputX.value)`, `none` for `NaN`; likewise `inputY`, `inputZ`. -/
  inputX : Option ℚ
  inputY : Option ℚ
  inputZ : Option ℚ
  /-- `parseFloat(inputVX.value)`; likewise `inputVY`, `inputVZ`. -/
  inputVX : ℚ
  inputVY : ℚ
  inputVZ : ℚ
  /-- `normalizeCheckbox.checked`. -/
  normalizeCheckbox : Bool
  /-- `parseFloat(speedSlider.value)`. -/
  speedSlider : ℚ
  /-- The element with id `resultDisplay`. -/
  resultDisplay : Display
  /-- The element with id `resultDisplayOverlay`. -/
  resultDisplayOverlay : Display
deriving DecidableEq

/-- `parseFloat(q.toFixed(1))`: `toFixed(1)` rounds the magnitude to the nearest
tenth, ties upwards, and keeps the sign; from `1e21` on it prints the number
itself. -/
def toFixed1 (q : ℚ) : ℚ :=
  if 10 ^ 21 ≤ |q| then q
  else if q < 0 then -((⌊(-q) * 10 + 1 / 2⌋ : ℤ) : ℚ) / 10
  else ((⌊q * 10 + 1 / 2⌋ : ℤ) : ℚ) / 10

/-- `updateProtonPositionFromInputs()`: moves the proton to the position fields
when all three parse to a number. -/
def updateProtonPositionFromInputs (s : Sim) : Sim :=
  match s.inputX, s.inputY, s.inputZ with
  | some x, some y, some z => { s with protonPosition := ⟨x, y, z⟩ }
  | _, _, _ => s

/-- The launch button's click handler.  Returns the new state and the payload
passed to `fetch`, if the handler gets that far. -/
def launch (sqrt : ℚ → ℚ) (s : Sim) : Sim × Option Payload :=
  let s1 := updateProtonPositionFromInputs s
  let s2 := { s1 with trailPoints := [] }
  let vx := s2.inputVX
  let vy := s2.inputVY
  let vz := s2.inputVZ
  let velocityVec : Vector3 := ⟨vx, vy, vz⟩
  if velocityVec.length sqrt = 0 then
    (s2, none)
  else
    let velocityVec1 := if s2.normalizeCheckbox then velocityVec.normalize sqrt else velocityVec
    let speed := s2.speedSlider
    let velocityVec2 := velocityVec1.multiplyScalar speed
    let s3 := { s2 with protonVelocity := velocityVec2, protonActive := true }
    let start_pos := (s3.inputX, s3.inputY, s3.inputZ)
    let vdir : Vector3 := ⟨vx, vy, vz⟩
    let vdir_normalized : Vector3 :=
      if s3.normalizeCheckbox then
        let mag := sqrt (vdir.x ^ 2 + vdir.y ^ 2 + vdir.z ^ 2)
        ⟨vdir.x / mag, vdir.y / mag, vdir.z / mag⟩
      else vdir
    (s3, some { start_pos := start_pos, vdir := vdir_normalized, vmag := speed })

/-- The callbacks attached to the `fetch` promise, run when the request ends. -/
def onResponse (o : Outcome) (s : Sim) : Sim :=
  match o with
  | Outcome.json result =>
    match result.stopping_power with
    | some v => { s with resultDisplayOverlay := Display.stoppingPower v }
    | none => { s with resultDisplayOverlay := Display.serviceError result.error }
  | Outcome.failed message => { s with resultDisplay := Display.requestFailed message }

/-- The reset button's click handler. -/
def reset (env : Env) (s : Sim) : Sim :=
  let s1 := { s with protonActive := false, trailPoints := [] }
  let s2 := { s1 with
    inputX := some (toFixed1 env.minBound.x)
    inputY := some (toFixed1 env.minBound.y)
    inputZ := some (toFixed1 env.minBound.z) }
  let s3 := updateProtonPositionFromInputs s2
  { s3 with
    inputVX := 0
    inputVY := 0
    inputVZ := 1 / 10
    protonVelocity := ⟨0, 0, 0⟩
    resultDisplay := Display.empty }

/-- One call of `animate()`: the per-frame update of the proton and the trail. -/
def animate (sqrt : ℚ → ℚ) (env : Env) (s : Sim) : Sim :=
  if s.protonActive then
    let p := s.protonPosition.add s.protonVelocity
    let s1 := { s with protonPosition := p, trailPoints := s.trailPoints ++ [p] }
    if p.distanceTo sqrt env.center > (env.latticeSize : ℚ) * env.unitCellSize * 2 then
      { s1 with protonActive := false }
    else s1
  else s

/-- The state once the module has run to its end (lines 126-135 and 290).  The
checkbox, the slider and the two result regions come from the page, which is
not part of the source, and are parameters. -/
def Sim.initial (env : Env) (normalizeCheckbox : Bool) (speedSlider : ℚ)
    (resultDisplay resultDisplayOverlay : Display) : Sim :=
  updateProtonPositionFromInputs
    { protonPosition := Vector3.zero
      protonVelocity := Vector3.zero
      protonActive := false
      trailPoints := []
      inputX := some (toFixed1 env.minBound.x)
      inputY := some (toFixed1 env.minBound.y)
      inputZ := some (toFixed1 env.minBound.z)
      inputVX := 0
      inputVY := 0
      inputVZ := 1 / 10
      normalizeCheckbox := normalizeCheckbox
      speedSlider := speedSlider
      resultDisplay := resultDisplay
      resultDisplayOverlay := resultDisplayOverlay }

/-- The events that change the state. -/
inductive Cmd where
  /-- An `input` event on a position field after the user changed its text. -/
  | editX (v : Option ℚ) : Cmd
  | editY (v : Option ℚ) : Cmd
  | editZ (v : Option ℚ) : Cmd
  /-- The user changes the velocity fields, the checkbox or the slider. -/
  | editVelocity (vx vy vz : ℚ) : Cmd
  | setNormalize (b : Bool) : Cmd
  | setSpeed (v : ℚ) : Cmd
  /-- A click on the launch button. -/
  | launch : Cmd
  /-- One animation frame. -/
  | tick : Cmd
  /-- A click on the reset button. -/
  | reset : Cmd
  /-- A pending prediction request ends. -/
  | response (o : Outcome) : Cmd
deriving DecidableEq

/-- The effect of one event. -/
def step (sqrt : ℚ → ℚ) (env : Env) (s : Sim) : Cmd → Sim
  | Cmd.editX v => updateProtonPositionFromInputs { s with inputX := v }
  | Cmd.editY v => updateProtonPositionFromInputs { s with inputY := v }
  | Cmd.editZ v => updateProtonPositionFromInputs { s with inputZ := v }
  | Cmd.editVelocity vx vy vz => { s with inputVX := vx, inputVY := vy, inputVZ := vz }
  | Cmd.setNormalize b => { s with normalizeCheckbox := b }
  | Cmd.setSpeed v => { s with speedSlider := v }
  | Cmd.launch => (launch sqrt s).1
  | Cmd.tick => animate sqrt env s
  | Cmd.reset => reset env s
  | Cmd.response o => onResponse o s

/-- The state after a sequence of events. -/
def run (sqrt : ℚ → ℚ) (env : Env) (s : Sim) (cs : List Cmd) : Sim :=
  cs.foldl (step sqrt env) s

/-- The state after `k` animation frames. -/
def ticks (sqrt : ℚ → ℚ) (env : Env) : ℕ → Sim → Sim
  | 0, s => s
  | k + 1, s => ticks sqrt env k (animate sqrt env s)

/-- The exit test of `animate`: the position is farther from `center` than
`latticeSize * unitCellSize * 2`. -/
def exits (sqrt : ℚ → ℚ) (env : Env) (p : Vector3) : Prop :=
  p.distanceTo sqrt env.center > (env.latticeSize : ℚ) * env.unitCellSize * 2

instance (sqrt : ℚ → ℚ) (env : Env) (p : Vector3) : Decidable (exits sqrt env p) := by
  unfold exits; infer_instance

/-- The number of animation frames in a sequence of events since its most recent
click on launch. -/
def ticksSinceLaunch (cs : List Cmd) : ℕ :=
  cs.foldl (fun k c => match c with
    | Cmd.launch => 0
    | Cmd.tick => k + 1
    | _ => k) 0

/-- One event, together with a counter of the animation frames that found the
proton active since the most recent click on launch or reset. -/
def stepCounting (sqrt : ℚ → ℚ) (env : Env) (sk : Sim × ℕ) (c : Cmd) : Sim × ℕ :=
  (step sqrt env sk.1 c,
    match c with
    | Cmd.launch => 0
    | Cmd.reset => 0
    | Cmd.tick => if sk.1.protonActive then sk.2 + 1 else sk.2
    | _ => sk.2)

/-- A sequence of events with the counter of `stepCounting`, started at zero. -/
def runCounting (sqrt : ℚ → ℚ) (env : Env) (s : Sim) (cs : List Cmd) : Sim × ℕ :=
  cs.foldl (stepCounting sqrt env) (s, 0)

/-- A state in flight: the proton was launched from `(1, 1, 1)` with velocity
`(0, 0, 1)` and one frame has passed; the user has since typed `0` into the three
velocity fields. -/
def inFlightZeroFields : Sim :=
  { protonPosition := ⟨1, 1, 2⟩
    protonVelocity := ⟨0, 0, 1⟩
    protonActive := true
    trailPoints := [⟨1, 1, 2⟩]
    inputX := some 1
    inputY := some 1
    inputZ := some 1
    inputVX := 0
    inputVY := 0
    inputVZ := 0
    normalizeCheckbox := true
    speedSlider := 1
    resultDisplay := Display.empty
    resultDisplayOverlay := Display.empty }

/-- The point `position + j * velocity` of a state: where straight-line motion
puts the proton `j` frames later. -/
def positionAt (s : Sim) (j : ℕ) : Vector3 :=
  s.protonPosition.add (s.protonVelocity.multiplyScalar (j : ℚ))

/-- The user types the position `(101, 1, 1)` and the velocity `(1, 0, 0)`. -/
def farStartEdits : List Cmd :=
  [Cmd.editX (some 101), Cmd.editY (some 1), Cmd.editZ (some 1), Cmd.editVelocity 1 0 0]

/-- Launch from `(101, 1, 1)`, then two animation frames. -/
def launchTickTick : List Cmd := farStartEdits ++ [Cmd.launch, Cmd.tick, Cmd.tick]

/-- Launch from `(101, 1, 1)`, one animation frame, then reset. -/
def launchTickReset : List Cmd := farStartEdits ++ [Cmd.launch, Cmd.tick, Cmd.reset]

/-- The constants the program computes (`mkEnv unitCellSize latticeSize`, see
`mkEnv_reference`): unit size 2, lattice size 5, lattice corner `(-4, -4, -4)`,
bounding-box centre `(1, 1, 1)`. -/
def referenceEnv : Env := ⟨2, 5, ⟨-4, -4, -4⟩, ⟨1, 1, 1⟩⟩

/-- An Idle state ready for launch: position fields `(1, 1, 1)`, velocity fields
`(0, 0, 1)`, normalization on, the slider at `speed`. -/
def readyUpward (speed : ℚ) : Sim :=
  { protonPosition := ⟨1, 1, 1⟩
    protonVelocity := ⟨0, 0, 0⟩
    protonActive := false
    trailPoints := []
    inputX := some 1
    inputY := some 1
    inputZ := some 1
    inputVX := 0
    inputVY := 0
    inputVZ := 1
    normalizeCheckbox := true
    speedSlider := speed
    resultDisplay := Display.empty
    resultDisplayOverlay := Display.empty }

end StoppingPower

namespace StoppingPower

/-! ## Lattice builder: proofs -/

theorem foldl_flatMap_eq {α β γ : Type} (f : α → List β) (g : γ → β → γ) (l : List α) (a : γ) :
    (l.flatMap f).foldl g a = l.foldl (fun a x => (f x).foldl g a) a := by
  induction l generalizing a with
  | nil => rfl
  | cons x xs ih => simp [List.flatMap_cons, List.foldl_append, ih]

theorem createFCCUnitCell_eq (u : ℚ) (o : ℚ × ℚ × ℚ) (st : Lattice) :
    createFCCUnitCell u o st = addAtoms (cellAtoms u o) st := by
  simp [createFCCUnitCell, addAtoms, cellAtoms, List.foldl_map]

theorem buildLattice_eq (u : ℚ) (n : ℕ) :
    buildLattice u n = addAtoms (latticeAtoms u n) Lattice.initial := by
  simp only [buildLattice, latticeAtoms, addAtoms, foldl_flatMap_eq, createFCCUnitCell_eq]

theorem addAtoms_atoms (ps : List Vector3) (st : Lattice) :
    (addAtoms ps st).atoms = st.atoms ++ ps := by
  induction ps generalizing st with
  | nil => simp [addAtoms]
  | cons p ps ih =>
    have := ih (createAtom p.x p.y p.z st)
    simp only [addAtoms, List.foldl_cons] at this ⊢
    rw [this]; simp [createAtom]

theorem addAtoms_minBound (ps : List Vector3) (st : Lattice) :
    (addAtoms ps st).minBound =
      ⟨(ps.map (·.x)).foldl Bound.minFin st.minBound.x,
       (ps.map (·.y)).foldl Bound.minFin st.minBound.y,
       (ps.map (·.z)).foldl Bound.minFin st.minBound.z⟩ := by
  induction ps generalizing st with
  | nil => simp [addAtoms]
  | cons p ps ih =>
    have := ih (createAtom p.x p.y p.z st)
    simp only [addAtoms, List.foldl_cons] at this ⊢
    rw [this]; simp [createAtom, BoundVec.min]

theorem addAtoms_maxBound (ps : List Vector3) (st : Lattice) :
    (addAtoms ps st).maxBound =
      ⟨(ps.map (·.x)).foldl Bound.maxFin st.maxBound.x,
       (ps.map (·.y)).foldl Bound.maxFin st.maxBound.y,
       (ps.map (·.z)).foldl Bound.maxFin st.maxBound.z⟩ := by
  induction ps generalizing st with
  | nil => simp [addAtoms]
  | cons p ps ih =>
    have := ih (createAtom p.x p.y p.z st)
    simp only [addAtoms, List.foldl_cons] at this ⊢
    rw [this]; simp [createAtom, BoundVec.max]

theorem foldl_minFin_fin (xs : List ℚ) (a : ℚ) :
    ∃ m, xs.foldl Bound.minFin (Bound.fin a) = Bound.fin m ∧ (m = a ∨ m ∈ xs) ∧ m ≤ a ∧
      ∀ x ∈ xs, m ≤ x := by
  induction xs generalizing a with
  | nil => exact ⟨a, rfl, Or.inl rfl, le_refl _, by simp⟩
  | cons x xs ih =>
    obtain ⟨m, hm, hmem, hle, hall⟩ := ih (min a x)
    refine ⟨m, by simpa [Bound.minFin] using hm, ?_, le_trans hle (min_le_left _ _), ?_⟩
    · rcases hmem with h | h
      · rcases min_choice a x with h' | h'
        · left; rw [h, h']
        · right; rw [h, h']; exact List.mem_cons_self _ _
      · right; exact List.mem_cons_of_mem _ h
    · intro y hy
      rcases List.mem_cons.1 hy with rfl | hy
      · exact le_trans hle (min_le_right _ _)
      · exact hall y hy

theorem foldl_maxFin_fin (xs : List ℚ) (a : ℚ) :
    ∃ m, xs.foldl Bound.maxFin (Bound.fin a) = Bound.fin m ∧ (m = a ∨ m ∈ xs) ∧ a ≤ m ∧
      ∀ x ∈ xs, x ≤ m := by
  induction xs generalizing a with
  | nil => exact ⟨a, rfl, Or.inl rfl, le_refl _, by simp⟩
  | cons x xs ih =>
    obtain ⟨m, hm, hmem, hle, hall⟩ := ih (max a x)
    refine ⟨m, by simpa [Bound.maxFin] using hm, ?_, le_trans (le_max_left _ _) hle, ?_⟩
    · rcases hmem with h | h
      · rcases max_choice a x with h' | h'
        · left; rw [h, h']
        · right; rw [h, h']; exact List.mem_cons_self _ _
      · right; exact List.mem_cons_of_mem _ h
    · intro y hy
      rcases List.mem_cons.1 hy with rfl | hy
      · exact le_trans (le_max_right _ _) hle
      · exact hall y hy

theorem foldl_minFin_posInf (xs : List ℚ) (h : xs ≠ []) :
    IsMinOf (xs.foldl Bound.minFin Bound.posInf) xs := by
  cases xs with
  | nil => exact absurd rfl h
  | cons x xs =>
    obtain ⟨m, hm, hmem, hle, hall⟩ := foldl_minFin_fin xs x
    refine ⟨m, by simpa [Bound.minFin] using hm, ?_, ?_⟩
    · rcases hmem with h | h
      · rw [h]; exact List.mem_cons_self _ _
      · exact List.mem_cons_of_mem _ h
    · intro y hy
      rcases List.mem_cons.1 hy with rfl | hy
      · exact hle
      · exact hall y hy

theorem foldl_maxFin_negInf (xs : List ℚ) (h : xs ≠ []) :
    IsMaxOf (xs.foldl Bound.maxFin Bound.negInf) xs := by
  cases xs with
  | nil => exact absurd rfl h
  | cons x xs =>
    obtain ⟨m, hm, hmem, hle, hall⟩ := foldl_maxFin_fin xs x
    refine ⟨m, by simpa [Bound.maxFin] using hm, ?_, ?_⟩
    · rcases hmem with h | h
      · rw [h]; exact List.mem_cons_self _ _
      · exact List.mem_cons_of_mem _ h
    · intro y hy
      rcases List.mem_cons.1 hy with rfl | hy
      · exact hle
      · exact hall y hy

theorem length_latticeAtoms (u : ℚ) (n : ℕ) : (latticeAtoms u n).length = 14 * n ^ 3 := by
  have h : ∀ (l : List ℕ) (f : ℕ → List Vector3) (c : ℕ), (∀ x, (f x).length = c) →
      (l.flatMap f).length = l.length * c := by
    intro l f c hf
    induction l with
    | nil => simp
    | cons x xs ih => simp [List.flatMap_cons, ih, hf, Nat.succ_mul, Nat.add_comm]
  have h14 : ∀ o, (cellAtoms u o).length = 14 := by intro o; simp [cellAtoms, positions]
  unfold latticeAtoms
  rw [h _ _ (n * (n * 14))]
  · simp; ring
  · intro x
    rw [h _ _ (n * 14)]
    · simp
    · intro y
      rw [h _ _ 14 (fun z => h14 _)]; simp

theorem latticeAtoms_ne_nil (u : ℚ) (n : ℕ) (hn : 1 ≤ n) : latticeAtoms u n ≠ [] := by
  intro h
  have := length_latticeAtoms u n
  rw [h] at this
  simp at this
  omega

theorem cubeCorners_append_faceCentres : cubeCorners ++ faceCentres =
    [ (0, 0, 0), (0, 0, 1), (0, 1, 0), (0, 1, 1), (1, 0, 0), (1, 0, 1), (1, 1, 0), (1, 1, 1),
      (0, 1/2, 1/2), (1/2, 0, 1/2), (1/2, 1/2, 0), (1, 1/2, 1/2), (1/2, 1, 1/2), (1/2, 1/2, 1) ] :=
  rfl

theorem positions_perm : positions.Perm (cubeCorners ++ faceCentres) := by
  have h1 : positions.Nodup := by
    simp only [positions, List.nodup_cons, List.mem_cons, Prod.mk.injEq]
    norm_num
  have h2 : (cubeCorners ++ faceCentres).Nodup := by
    rw [cubeCorners_append_faceCentres]
    simp only [List.nodup_cons, List.mem_cons, Prod.mk.injEq]
    norm_num
  rw [List.perm_ext_iff_of_nodup h1 h2, cubeCorners_append_faceCentres]
  intro a
  simp only [positions, List.mem_cons, List.mem_singleton, List.not_mem_nil, or_false]
  constructor <;>
  · intro h
    rcases h with h | h | h | h | h | h | h | h | h | h | h | h | h | h <;> simp [h]

theorem mem_latticeAtoms (u : ℚ) (n : ℕ) (p : Vector3) :
    p ∈ latticeAtoms u n ↔ ∃ x, x < n ∧ ∃ y, y < n ∧ ∃ z, z < n ∧ ∃ d, d ∈ positions ∧
      p = ⟨(cellOrigin u n x y z).1 + d.1 * u, (cellOrigin u n x y z).2.1 + d.2.1 * u,
           (cellOrigin u n x y z).2.2 + d.2.2 * u⟩ := by
  simp only [latticeAtoms, cellAtoms, List.mem_flatMap, List.mem_range, List.mem_map]
  constructor
  · rintro ⟨x, hx, y, hy, z, hz, d, hd, rfl⟩
    exact ⟨x, hx, y, hy, z, hz, d, hd, rfl⟩
  · rintro ⟨x, hx, y, hy, z, hz, d, hd, rfl⟩
    exact ⟨x, hx, y, hy, z, hz, d, hd, rfl⟩

theorem positions_bounds (d : ℚ × ℚ × ℚ) (hd : d ∈ positions) :
    (0 ≤ d.1 ∧ d.1 ≤ 1) ∧ (0 ≤ d.2.1 ∧ d.2.1 ≤ 1) ∧ (0 ≤ d.2.2 ∧ d.2.2 ≤ 1) := by
  simp only [positions, List.mem_cons, List.mem_singleton, List.not_mem_nil, or_false] at hd
  rcases hd with h | h | h | h | h | h | h | h | h | h | h | h | h | h <;> subst h <;> norm_num

theorem isMinOf_eq_fin {b : Bound} {xs : List ℚ} {c : ℚ} (h : IsMinOf b xs) (hc : c ∈ xs)
    (hle : ∀ x ∈ xs, c ≤ x) : b = Bound.fin c := by
  obtain ⟨m, hb, hm, hall⟩ := h
  rw [hb, le_antisymm (hall c hc) (hle m hm)]

theorem isMaxOf_eq_fin {b : Bound} {xs : List ℚ} {c : ℚ} (h : IsMaxOf b xs) (hc : c ∈ xs)
    (hle : ∀ x ∈ xs, x ≤ c) : b = Bound.fin c := by
  obtain ⟨m, hb, hm, hall⟩ := h
  rw [hb, le_antisymm (hle m hm) (hall c hc)]

/-- The bounds after the build are the running minima and maxima of the coordinates
of the atoms created. -/
theorem buildLattice_bounds (u : ℚ) (n : ℕ) (hn : 1 ≤ n) :
    (IsMinOf (buildLattice u n).minBound.x ((latticeAtoms u n).map (·.x)) ∧
     IsMinOf (buildLattice u n).minBound.y ((latticeAtoms u n).map (·.y)) ∧
     IsMinOf (buildLattice u n).minBound.z ((latticeAtoms u n).map (·.z))) ∧
    (IsMaxOf (buildLattice u n).maxBound.x ((latticeAtoms u n).map (·.x)) ∧
     IsMaxOf (buildLattice u n).maxBound.y ((latticeAtoms u n).map (·.y)) ∧
     IsMaxOf (buildLattice u n).maxBound.z ((latticeAtoms u n).map (·.z))) := by
  have hne := latticeAtoms_ne_nil u n hn
  have hx : (latticeAtoms u n).map (·.x) ≠ [] := by simpa using hne
  have hy : (latticeAtoms u n).map (·.y) ≠ [] := by simpa using hne
  have hz : (latticeAtoms u n).map (·.z) ≠ [] := by simpa using hne
  rw [buildLattice_eq, addAtoms_minBound, addAtoms_maxBound]
  exact ⟨⟨foldl_minFin_posInf _ hx, foldl_minFin_posInf _ hy, foldl_minFin_posInf _ hz⟩,
    ⟨foldl_maxFin_negInf _ hx, foldl_maxFin_negInf _ hy, foldl_maxFin_negInf _ hz⟩⟩

theorem buildLattice_atoms (u : ℚ) (n : ℕ) : (buildLattice u n).atoms = latticeAtoms u n := by
  rw [buildLattice_eq, addAtoms_atoms]; rfl

/-- The corners of the bounding box in closed form, for `n ≥ 1` and `u ≥ 0`. -/
theorem buildLattice_corners (u : ℚ) (n : ℕ) (hu : 0 ≤ u) (hn : 1 ≤ n) :
    (buildLattice u n).minBound =
        ⟨Bound.fin (u / 2 - n * u / 2), Bound.fin (u / 2 - n * u / 2),
         Bound.fin (u / 2 - n * u / 2)⟩ ∧
    (buildLattice u n).maxBound =
        ⟨Bound.fin (n * u / 2 + u / 2), Bound.fin (n * u / 2 + u / 2),
         Bound.fin (n * u / 2 + u / 2)⟩ := by
  obtain ⟨⟨h1, h2, h3⟩, ⟨h4, h5, h6⟩⟩ := buildLattice_bounds u n hn
  have hn1 : n - 1 < n := by omega
  have hn0 : 0 < n := by omega
  have hcast : ((n - 1 : ℕ) : ℚ) = (n : ℚ) - 1 := by
    rw [Nat.cast_sub hn]; simp
  have h000 : ((0, 0, 0) : ℚ × ℚ × ℚ) ∈ positions := by simp [positions]
  have h111 : ((1, 1, 1) : ℚ × ℚ × ℚ) ∈ positions := by simp [positions]
  have key : ∀ (x : ℕ) (d : ℚ), x < n → 0 ≤ d → d ≤ 1 →
      u / 2 - n * u / 2 ≤ (x : ℚ) * u - latticeOffset u n + u / 2 + d * u ∧
      (x : ℚ) * u - latticeOffset u n + u / 2 + d * u ≤ n * u / 2 + u / 2 := by
    intro x d hx hd0 hd1
    have hx0 : (0 : ℚ) ≤ x := Nat.cast_nonneg x
    have hx1 : (x : ℚ) ≤ n - 1 := by
      have : x ≤ n - 1 := by omega
      have h' : (x : ℚ) ≤ ((n - 1 : ℕ) : ℚ) := by exact_mod_cast this
      rwa [hcast] at h'
    have e1 : 0 ≤ (x : ℚ) * u := mul_nonneg hx0 hu
    have e2 : 0 ≤ d * u := mul_nonneg hd0 hu
    have e3 : 0 ≤ ((n : ℚ) - 1 - x) * u := mul_nonneg (by linarith) hu
    have e4 : 0 ≤ (1 - d) * u := mul_nonneg (by linarith) hu
    unfold latticeOffset
    constructor <;> nlinarith
  have lo : ∀ p ∈ latticeAtoms u n,
      (u / 2 - n * u / 2 ≤ p.x ∧ p.x ≤ n * u / 2 + u / 2) ∧
      (u / 2 - n * u / 2 ≤ p.y ∧ p.y ≤ n * u / 2 + u / 2) ∧
      (u / 2 - n * u / 2 ≤ p.z ∧ p.z ≤ n * u / 2 + u / 2) := by
    intro p hp
    obtain ⟨x, hx, y, hy, z, hz, d, hd, rfl⟩ := (mem_latticeAtoms u n p).1 hp
    obtain ⟨⟨a1, a2⟩, ⟨b1, b2⟩, ⟨c1, c2⟩⟩ := positions_bounds d hd
    exact ⟨key x d.1 hx a1 a2, key y d.2.1 hy b1 b2, key z d.2.2 hz c1 c2⟩
  have pmin : (⟨u / 2 - n * u / 2, u / 2 - n * u / 2, u / 2 - n * u / 2⟩ : Vector3) ∈
      latticeAtoms u n := by
    rw [mem_latticeAtoms]
    refine ⟨0, hn0, 0, hn0, 0, hn0, (0, 0, 0), h000, ?_⟩
    simp only [cellOrigin, latticeOffset, Vector3.mk.injEq]
    refine ⟨?_, ?_, ?_⟩ <;> (push_cast; ring)
  have pmax : (⟨n * u / 2 + u / 2, n * u / 2 + u / 2, n * u / 2 + u / 2⟩ : Vector3) ∈
      latticeAtoms u n := by
    rw [mem_latticeAtoms]
    refine ⟨n - 1, hn1, n - 1, hn1, n - 1, hn1, (1, 1, 1), h111, ?_⟩
    simp only [cellOrigin, latticeOffset, Vector3.mk.injEq, hcast]
    refine ⟨?_, ?_, ?_⟩ <;> ring
  have mx := List.mem_map_of_mem (·.x) pmin
  have my := List.mem_map_of_mem (·.y) pmin
  have mz := List.mem_map_of_mem (·.z) pmin
  have Mx := List.mem_map_of_mem (·.x) pmax
  have My := List.mem_map_of_mem (·.y) pmax
  have Mz := List.mem_map_of_mem (·.z) pmax
  have ex : ∀ (f : Vector3 → ℚ) (v : ℚ), v ∈ (latticeAtoms u n).map f →
      ∃ p ∈ latticeAtoms u n, f p = v := fun f v hv => List.mem_map.1 hv
  constructor
  · have a := isMinOf_eq_fin h1 mx (fun v hv => by
      obtain ⟨p, hp, rfl⟩ := ex _ v hv; exact (lo p hp).1.1)
    have b := isMinOf_eq_fin h2 my (fun v hv => by
      obtain ⟨p, hp, rfl⟩ := ex _ v hv; exact (lo p hp).2.1.1)
    have c := isMinOf_eq_fin h3 mz (fun v hv => by
      obtain ⟨p, hp, rfl⟩ := ex _ v hv; exact (lo p hp).2.2.1)
    cases hm : (buildLattice u n).minBound
    simp only [hm] at a b c
    rw [a, b, c]
  · have a := isMaxOf_eq_fin h4 Mx (fun v hv => by
      obtain ⟨p, hp, rfl⟩ := ex _ v hv; exact (lo p hp).1.2)
    have b := isMaxOf_eq_fin h5 My (fun v hv => by
      obtain ⟨p, hp, rfl⟩ := ex _ v hv; exact (lo p hp).2.1.2)
    have c := isMaxOf_eq_fin h6 Mz (fun v hv => by
      obtain ⟨p, hp, rfl⟩ := ex _ v hv; exact (lo p hp).2.2.2)
    cases hm : (buildLattice u n).maxBound
    simp only [hm] at a b c
    rw [a, b, c]

/-- The bounding-box centre in closed form: `(u/2, u/2, u/2)`. -/
theorem buildLattice_center (u : ℚ) (n : ℕ) (hu : 0 ≤ u) (hn : 1 ≤ n) :
    (buildLattice u n).center = some ⟨u / 2, u / 2, u / 2⟩ := by
  obtain ⟨h1, h2⟩ := buildLattice_corners u n hu hn
  simp only [Lattice.center, h1, h2, BoundVec.toVector3, Vector3.add, Vector3.multiplyScalar,
    Option.some.injEq, Vector3.mk.injEq]
  refine ⟨?_, ?_, ?_⟩ <;> ring

end StoppingPower

namespace StoppingPower

/-! ## Lattice builder: the claims -/

theorem cellAtoms_perm (u : ℚ) (o : ℚ × ℚ × ℚ) : (cellAtoms u o).Perm (cellPoints u o) := by
  have h : (fun p : ℚ × ℚ × ℚ =>
        (⟨o.1 + p.1 * u, o.2.1 + p.2.1 * u, o.2.2 + p.2.2 * u⟩ : Vector3)) =
      fun d => ⟨o.1 + u * d.1, o.2.1 + u * d.2.1, o.2.2 + u * d.2.2⟩ := by
    funext p
    simp only [Vector3.mk.injEq]
    refine ⟨?_, ?_, ?_⟩ <;> ring
  unfold cellAtoms cellPoints
  rw [h]
  exact positions_perm.map _

/-- C2: for every positive unit size `u` and every lattice size `n`, the build
creates exactly `14 * n ^ 3` atoms; they are, cell by cell in loop order, the atoms
of `createFCCUnitCell`, which for each cell are a rearrangement of the cell origin
plus `u` times the 8 cube corners and the 6 face centres; and for `n ≥ 1` each
component of `minBound` (`maxBound`) is the least (greatest) value of that
coordinate over the atoms created. -/
theorem buildLattice_points_and_bounds (u : ℚ) (n : ℕ) (hu : 0 < u) :
    (buildLattice u n).atoms.length = 14 * n ^ 3 ∧
    (buildLattice u n).atoms =
      ((List.range n).flatMap fun x => (List.range n).flatMap fun y =>
        (List.range n).flatMap fun z => cellAtoms u (cellOrigin u n x y z)) ∧
    (∀ o, (cellAtoms u o).Perm (cellPoints u o) ∧ (cellPoints u o).length = 14) ∧
    (1 ≤ n →
      (IsMinOf (buildLattice u n).minBound.x ((buildLattice u n).atoms.map (·.x)) ∧
       IsMinOf (buildLattice u n).minBound.y ((buildLattice u n).atoms.map (·.y)) ∧
       IsMinOf (buildLattice u n).minBound.z ((buildLattice u n).atoms.map (·.z))) ∧
      (IsMaxOf (buildLattice u n).maxBound.x ((buildLattice u n).atoms.map (·.x)) ∧
       IsMaxOf (buildLattice u n).maxBound.y ((buildLattice u n).atoms.map (·.y)) ∧
       IsMaxOf (buildLattice u n).maxBound.z ((buildLattice u n).atoms.map (·.z)))) := by
  have _ := hu
  refine ⟨?_, ?_, ?_, ?_⟩
  · rw [buildLattice_atoms, length_latticeAtoms]
  · rw [buildLattice_atoms]; rfl
  · intro o
    exact ⟨cellAtoms_perm u o, by rw [← (cellAtoms_perm u o).length_eq]; simp [cellAtoms, positions]⟩
  · intro hn
    rw [buildLattice_atoms]
    exact buildLattice_bounds u n hn

/-- Witness for C2: the reference unit size with a single cell. -/
theorem buildLattice_points_and_bounds_witness :
    (0 : ℚ) < 2 ∧ (buildLattice 2 1).atoms.length = 14 * 1 ^ 3 ∧
      IsMinOf (buildLattice 2 1).minBound.x ((buildLattice 2 1).atoms.map (·.x)) :=
  ⟨by norm_num, (buildLattice_points_and_bounds 2 1 (by norm_num)).1,
    ((buildLattice_points_and_bounds 2 1 (by norm_num)).2.2.2 (le_refl 1)).1.1⟩

/-- C3 (evaluation of the code): with the reference constants `unitCellSize = 2`,
`latticeSize = 5` the bounding-box centre `(minBound + maxBound) / 2` is `(1, 1, 1)`,
half a unit cell away from the world origin on every axis. -/
theorem center_reference_off_origin :
    (buildLattice unitCellSize latticeSize).center = some ⟨1, 1, 1⟩ ∧
    (buildLattice unitCellSize latticeSize).center ≠ some ⟨0, 0, 0⟩ := by
  have h := buildLattice_center unitCellSize latticeSize (by norm_num [unitCellSize])
    (by norm_num [latticeSize])
  have e : (unitCellSize / 2 : ℚ) = 1 := by norm_num [unitCellSize]
  rw [e] at h
  rw [h]
  exact ⟨rfl, by simp⟩

/-- C9 (as stated, refuted): for the positive unit size `2` and lattice size `0` the
build leaves `minBound = Infinity` and `maxBound = -Infinity` on every axis, so
`minBound ≤ maxBound` holds on none. -/
theorem empty_lattice_bounds_inverted :
    (0 : ℚ) < 2 ∧
    (buildLattice 2 0).minBound = ⟨Bound.posInf, Bound.posInf, Bound.posInf⟩ ∧
    (buildLattice 2 0).maxBound = ⟨Bound.negInf, Bound.negInf, Bound.negInf⟩ ∧
    ¬ Bound.le (buildLattice 2 0).minBound.x (buildLattice 2 0).maxBound.x ∧
    ¬ Bound.le (buildLattice 2 0).minBound.y (buildLattice 2 0).maxBound.y ∧
    ¬ Bound.le (buildLattice 2 0).minBound.z (buildLattice 2 0).maxBound.z := by
  have h : buildLattice 2 0 = Lattice.initial := rfl
  rw [h]
  refine ⟨by norm_num, rfl, rfl, ?_, ?_, ?_⟩ <;> simp [Lattice.initial, Bound.le]

/-- C9 (amended): for every positive unit size `u` and every lattice size `n ≥ 1`,
after the build `minBound ≤ maxBound` on every axis. -/
theorem bounds_ordered (u : ℚ) (n : ℕ) (hu : 0 < u) (hn : 1 ≤ n) :
    Bound.le (buildLattice u n).minBound.x (buildLattice u n).maxBound.x ∧
    Bound.le (buildLattice u n).minBound.y (buildLattice u n).maxBound.y ∧
    Bound.le (buildLattice u n).minBound.z (buildLattice u n).maxBound.z := by
  obtain ⟨h1, h2⟩ := buildLattice_corners u n hu.le hn
  have hnu : 0 ≤ (n : ℚ) * u := mul_nonneg (Nat.cast_nonneg n) hu.le
  have key : u / 2 - n * u / 2 ≤ n * u / 2 + u / 2 := by linarith
  rw [h1, h2]
  exact ⟨key, key, key⟩

/-- Witness for C9 (amended): the reference constants. -/
theorem bounds_ordered_witness :
    (0 : ℚ) < 2 ∧ 1 ≤ 5 ∧
    Bound.le (buildLattice 2 5).minBound.x (buildLattice 2 5).maxBound.x ∧
    Bound.le (buildLattice 2 5).minBound.y (buildLattice 2 5).maxBound.y ∧
    Bound.le (buildLattice 2 5).minBound.z (buildLattice 2 5).maxBound.z :=
  ⟨by norm_num, by norm_num, bounds_ordered 2 5 (by norm_num) (by norm_num)⟩

end StoppingPower

namespace StoppingPower

/-! ## Simulator: basic facts -/

theorem rat_sqrt_sq (q : ℚ) (h : 0 ≤ q) : Rat.sqrt (q * q) = q := by
  rw [Rat.sqrt_eq, abs_of_nonneg h]

theorem rat_sqrt_zero : Rat.sqrt 0 = 0 := by
  have h := rat_sqrt_sq 0 (le_refl 0)
  rwa [mul_zero] at h

theorem rat_sqrt_one : Rat.sqrt 1 = 1 := by
  have h := rat_sqrt_sq 1 zero_le_one
  rwa [mul_one] at h

theorem update_protonVelocity (s : Sim) :
    (updateProtonPositionFromInputs s).protonVelocity = s.protonVelocity := by
  unfold updateProtonPositionFromInputs; split <;> rfl

theorem update_protonActive (s : Sim) :
    (updateProtonPositionFromInputs s).protonActive = s.protonActive := by
  unfold updateProtonPositionFromInputs; split <;> rfl

theorem update_trailPoints (s : Sim) :
    (updateProtonPositionFromInputs s).trailPoints = s.trailPoints := by
  unfold updateProtonPositionFromInputs; split <;> rfl

theorem update_inputV (s : Sim) :
    (updateProtonPositionFromInputs s).inputVX = s.inputVX ∧
    (updateProtonPositionFromInputs s).inputVY = s.inputVY ∧
    (updateProtonPositionFromInputs s).inputVZ = s.inputVZ ∧
    (updateProtonPositionFromInputs s).normalizeCheckbox = s.normalizeCheckbox ∧
    (updateProtonPositionFromInputs s).speedSlider = s.speedSlider := by
  unfold updateProtonPositionFromInputs; split <;> exact ⟨rfl, rfl, rfl, rfl, rfl⟩

theorem update_inputs (s : Sim) :
    (updateProtonPositionFromInputs s).inputX = s.inputX ∧
    (updateProtonPositionFromInputs s).inputY = s.inputY ∧
    (updateProtonPositionFromInputs s).inputZ = s.inputZ := by
  unfold updateProtonPositionFromInputs; split <;> exact ⟨rfl, rfl, rfl⟩

theorem update_displays (s : Sim) :
    (updateProtonPositionFromInputs s).resultDisplay = s.resultDisplay ∧
    (updateProtonPositionFromInputs s).resultDisplayOverlay = s.resultDisplayOverlay := by
  unfold updateProtonPositionFromInputs; split <;> exact ⟨rfl, rfl⟩

theorem update_position_of_some (s : Sim) (x y z : ℚ) (hx : s.inputX = some x)
    (hy : s.inputY = some y) (hz : s.inputZ = some z) :
    (updateProtonPositionFromInputs s).protonPosition = ⟨x, y, z⟩ := by
  unfold updateProtonPositionFromInputs; rw [hx, hy, hz]

/-- What a launch that is not aborted leaves behind. -/
theorem launch_of_length_ne_zero (sqrt : ℚ → ℚ) (s : Sim)
    (hv : Vector3.length sqrt ⟨s.inputVX, s.inputVY, s.inputVZ⟩ ≠ 0) :
    (launch sqrt s).1 =
      { updateProtonPositionFromInputs s with
        trailPoints := []
        protonVelocity :=
          ((if s.normalizeCheckbox then
              Vector3.normalize sqrt ⟨s.inputVX, s.inputVY, s.inputVZ⟩
            else ⟨s.inputVX, s.inputVY, s.inputVZ⟩) : Vector3).multiplyScalar s.speedSlider
        protonActive := true } := by
  obtain ⟨h1, h2, h3, h4, h5⟩ := update_inputV s
  simp only [launch, h1, h2, h3, h4, h5, if_neg hv]

/-- What an aborted launch leaves behind. -/
theorem launch_of_length_zero (sqrt : ℚ → ℚ) (s : Sim)
    (hv : Vector3.length sqrt ⟨s.inputVX, s.inputVY, s.inputVZ⟩ = 0) :
    launch sqrt s = ({ updateProtonPositionFromInputs s with trailPoints := [] }, none) := by
  obtain ⟨h1, h2, h3, _, _⟩ := update_inputV s
  simp only [launch, h1, h2, h3, if_pos hv]

end StoppingPower

namespace StoppingPower

/-! ## Launch with a zero vector, reset, payload, result regions: the claims -/

/-- C1 (as stated, refuted): in the in-flight state `inFlightZeroFields`, whose
velocity fields read `(0, 0, 0)`, a click on launch empties the non-empty trail,
moves the proton from `(1, 1, 2)` back to the position fields `(1, 1, 1)` and
leaves the simulator Active; only the velocity is untouched. -/
theorem launch_zero_velocity_mutates :
    (inFlightZeroFields.inputVX = 0 ∧ inFlightZeroFields.inputVY = 0 ∧
      inFlightZeroFields.inputVZ = 0) ∧
    inFlightZeroFields.trailPoints = [⟨1, 1, 2⟩] ∧
    (launch Rat.sqrt inFlightZeroFields).1.trailPoints = [] ∧
    inFlightZeroFields.protonPosition = ⟨1, 1, 2⟩ ∧
    (launch Rat.sqrt inFlightZeroFields).1.protonPosition = ⟨1, 1, 1⟩ ∧
    (launch Rat.sqrt inFlightZeroFields).1.protonActive = true ∧
    ¬ ((launch Rat.sqrt inFlightZeroFields).1.trailPoints = inFlightZeroFields.trailPoints ∧
       (launch Rat.sqrt inFlightZeroFields).1.protonPosition =
         inFlightZeroFields.protonPosition ∧
       (launch Rat.sqrt inFlightZeroFields).1.protonVelocity =
         inFlightZeroFields.protonVelocity ∧
       (launch Rat.sqrt inFlightZeroFields).1.protonActive = false) := by
  have hv : Vector3.length Rat.sqrt
      ⟨inFlightZeroFields.inputVX, inFlightZeroFields.inputVY, inFlightZeroFields.inputVZ⟩ = 0 := by
    simp [Vector3.length, Vector3.lengthSq, inFlightZeroFields, rat_sqrt_zero]
  rw [launch_of_length_zero Rat.sqrt _ hv]
  simp [inFlightZeroFields, updateProtonPositionFromInputs]

/-- C1 (amended): for every simulator state and every content of the position
fields, a click on launch while the velocity fields read `(0, 0, 0)` leaves the
proton velocity and the Active/Idle flag as they were; in particular a simulator
that was Idle is Idle afterwards. -/
theorem launch_zero_velocity_keeps_velocity_and_flag (sqrt : ℚ → ℚ) (s : Sim) (hs : sqrt 0 = 0)
    (hx : s.inputVX = 0) (hy : s.inputVY = 0) (hz : s.inputVZ = 0) :
    (launch sqrt s).1.protonVelocity = s.protonVelocity ∧
    (launch sqrt s).1.protonActive = s.protonActive ∧
    (s.protonActive = false → (launch sqrt s).1.protonActive = false) := by
  have hv : Vector3.length sqrt ⟨s.inputVX, s.inputVY, s.inputVZ⟩ = 0 := by
    simp [Vector3.length, Vector3.lengthSq, hx, hy, hz, hs]
  rw [launch_of_length_zero sqrt s hv]
  refine ⟨update_protonVelocity s, update_protonActive s, fun h => ?_⟩
  exact (update_protonActive s).trans h

/-- Witness for C1 (amended): the in-flight state with zeroed velocity fields. -/
theorem launch_zero_velocity_keeps_velocity_and_flag_witness :
    Rat.sqrt 0 = 0 ∧ inFlightZeroFields.inputVX = 0 ∧ inFlightZeroFields.inputVY = 0 ∧
    inFlightZeroFields.inputVZ = 0 ∧
    (launch Rat.sqrt inFlightZeroFields).1.protonVelocity = inFlightZeroFields.protonVelocity ∧
    (launch Rat.sqrt inFlightZeroFields).1.protonActive = inFlightZeroFields.protonActive :=
  ⟨rat_sqrt_zero, rfl, rfl, rfl,
    (launch_zero_velocity_keeps_velocity_and_flag Rat.sqrt inFlightZeroFields rat_sqrt_zero
      rfl rfl rfl).1,
    (launch_zero_velocity_keeps_velocity_and_flag Rat.sqrt inFlightZeroFields rat_sqrt_zero
      rfl rfl rfl).2.1⟩

theorem toFixed1_neg_four : toFixed1 (-4) = -4 := by
  have h : ⌊(4 : ℚ) * 10 + 1 / 2⌋ = 40 := by
    rw [Int.floor_eq_iff]; norm_num
  unfold toFixed1
  rw [if_neg (by norm_num [abs_of_neg]), if_pos (by norm_num), neg_neg, h]
  norm_num

/-- The constants of the program: unit size 2, lattice size 5, lattice corner
`(-4, -4, -4)`, bounding-box centre `(1, 1, 1)`. -/
theorem mkEnv_reference : mkEnv unitCellSize latticeSize = some referenceEnv := by
  have hc := buildLattice_center unitCellSize latticeSize (by norm_num [unitCellSize])
    (by norm_num [latticeSize])
  obtain ⟨h1, _⟩ := buildLattice_corners unitCellSize latticeSize (by norm_num [unitCellSize])
    (by norm_num [latticeSize])
  have e1 : (unitCellSize / 2 : ℚ) = 1 := by norm_num [unitCellSize]
  have e2 : (unitCellSize / 2 - (latticeSize : ℚ) * unitCellSize / 2 : ℚ) = -4 := by
    norm_num [unitCellSize, latticeSize]
  rw [e1] at hc
  rw [e2] at h1
  simp only [mkEnv, hc, h1, BoundVec.toVector3]
  rfl

/-- C6: whatever the state before (Idle or Active, any position, velocity, trail and
field contents), a click on reset leaves the proton at the bounding box's minimum
corner `minBound`, the velocity `(0, 0, 0)`, the trail empty and the simulator
Idle.  The constants are those the program builds (`unitCellSize = 2`,
`latticeSize = 5`). -/
theorem reset_restores (s : Sim) :
    ∃ env, mkEnv unitCellSize latticeSize = some env ∧
      (reset env s).protonPosition = env.minBound ∧
      (reset env s).protonVelocity = ⟨0, 0, 0⟩ ∧
      (reset env s).trailPoints = [] ∧
      (reset env s).protonActive = false := by
  refine ⟨_, mkEnv_reference, ?_, ?_, ?_, ?_⟩ <;>
    simp [reset, updateProtonPositionFromInputs, referenceEnv, toFixed1_neg_four]

end StoppingPower

namespace StoppingPower

/-- C10 (evaluation of the code): a prediction rendered by the response callback,
whether a stopping power or a service error, is written to `resultDisplayOverlay`,
and a click on reset clears only `resultDisplay`; the overlay still shows the
result after the reset. -/
theorem reset_keeps_rendered_prediction (env : Env) (s : Sim) (r : PredictionResult) :
    (reset env (onResponse (Outcome.json r) s)).resultDisplayOverlay =
        (onResponse (Outcome.json r) s).resultDisplayOverlay ∧
    (onResponse (Outcome.json r) s).resultDisplayOverlay ≠ Display.empty ∧
    (∀ v, r.stopping_power = some v →
      (reset env (onResponse (Outcome.json r) s)).resultDisplayOverlay =
        Display.stoppingPower v) ∧
    (r.stopping_power = none →
      (reset env (onResponse (Outcome.json r) s)).resultDisplayOverlay =
        Display.serviceError r.error) ∧
    (reset env (onResponse (Outcome.json r) s)).resultDisplay = Display.empty := by
  have h : ∀ t : Sim, (reset env t).resultDisplayOverlay = t.resultDisplayOverlay ∧
      (reset env t).resultDisplay = Display.empty := by
    intro t
    simp [reset, updateProtonPositionFromInputs]
  refine ⟨(h _).1, ?_, ?_, ?_, (h _).2⟩
  · cases hr : r.stopping_power <;> simp [onResponse, hr]
  · intro v hr
    rw [(h _).1]; simp [onResponse, hr]
  · intro hr
    rw [(h _).1]; simp [onResponse, hr]

end StoppingPower

namespace StoppingPower

/-! ## Animation frames: basic facts -/

theorem animate_idle (sqrt : ℚ → ℚ) (env : Env) (s : Sim) (h : s.protonActive = false) :
    animate sqrt env s = s := by
  simp [animate, h]

theorem animate_active (sqrt : ℚ → ℚ) (env : Env) (s : Sim) (h : s.protonActive = true) :
    (animate sqrt env s).protonPosition = s.protonPosition.add s.protonVelocity ∧
    (animate sqrt env s).trailPoints =
      s.trailPoints ++ [s.protonPosition.add s.protonVelocity] ∧
    (animate sqrt env s).protonVelocity = s.protonVelocity ∧
    ((animate sqrt env s).protonActive = true ↔
      ¬ exits sqrt env (s.protonPosition.add s.protonVelocity)) := by
  by_cases hx : exits sqrt env (s.protonPosition.add s.protonVelocity)
  · have hx' := hx
    unfold exits at hx'
    simp [animate, h, hx', hx]
  · have hx' := hx
    unfold exits at hx'
    simp only [gt_iff_lt, not_lt] at hx'
    have hlt := not_lt.2 hx'
    simp [animate, h, hlt, hx]

theorem ticks_succ_right (sqrt : ℚ → ℚ) (env : Env) (k : ℕ) (s : Sim) :
    ticks sqrt env (k + 1) s = animate sqrt env (ticks sqrt env k s) := by
  induction k generalizing s with
  | zero => rfl
  | succ k ih =>
    have h := ih (animate sqrt env s)
    simp only [ticks] at h ⊢
    exact h

theorem ticks_idle (sqrt : ℚ → ℚ) (env : Env) (k : ℕ) (s : Sim) (h : s.protonActive = false) :
    ticks sqrt env k s = s := by
  induction k with
  | zero => rfl
  | succ k ih => rw [ticks_succ_right, ih, animate_idle sqrt env s h]

theorem ticks_add (sqrt : ℚ → ℚ) (env : Env) (i k : ℕ) (s : Sim) :
    ticks sqrt env (k + i) s = ticks sqrt env i (ticks sqrt env k s) := by
  induction i with
  | zero => rfl
  | succ i ih => rw [← Nat.add_assoc, ticks_succ_right, ih, ticks_succ_right]

/-- Once Idle, every later frame leaves the whole state as it is. -/
theorem ticks_after_idle (sqrt : ℚ → ℚ) (env : Env) (m k : ℕ) (s : Sim) (hmk : m ≤ k)
    (h : (ticks sqrt env m s).protonActive = false) :
    ticks sqrt env k s = ticks sqrt env m s := by
  obtain ⟨i, rfl⟩ := Nat.exists_eq_add_of_le hmk
  rw [ticks_add, ticks_idle sqrt env i _ h]

theorem active_of_active_later (sqrt : ℚ → ℚ) (env : Env) (j k : ℕ) (s : Sim) (hjk : j ≤ k)
    (h : (ticks sqrt env k s).protonActive = true) :
    (ticks sqrt env j s).protonActive = true := by
  by_contra hj
  have hj' : (ticks sqrt env j s).protonActive = false := by simpa using hj
  rw [ticks_after_idle sqrt env j k s hjk hj', hj'] at h
  exact absurd h (by simp)

theorem positionAt_zero (s : Sim) : positionAt s 0 = s.protonPosition := by
  simp [positionAt, Vector3.add, Vector3.multiplyScalar]

theorem positionAt_succ (s : Sim) (j : ℕ) :
    (positionAt s j).add s.protonVelocity = positionAt s (j + 1) := by
  simp only [positionAt, Vector3.add, Vector3.multiplyScalar, Vector3.mk.injEq]
  push_cast
  refine ⟨?_, ?_, ?_⟩ <;> ring

/-- While the proton has been Active before each of the first `k` frames, it moves
on the straight line `position + j * velocity` and the trail records each point. -/
theorem ticks_trajectory (sqrt : ℚ → ℚ) (env : Env) (s : Sim) (k : ℕ)
    (h : ∀ j, j < k → (ticks sqrt env j s).protonActive = true) :
    (ticks sqrt env k s).protonPosition = positionAt s k ∧
    (ticks sqrt env k s).trailPoints =
      s.trailPoints ++ (List.range k).map (fun i => positionAt s (i + 1)) ∧
    (ticks sqrt env k s).protonVelocity = s.protonVelocity := by
  induction k with
  | zero => simp [ticks, positionAt_zero]
  | succ k ih =>
    obtain ⟨h1, h2, h3⟩ := ih (fun j hj => h j (Nat.lt_succ_of_lt hj))
    obtain ⟨a1, a2, a3, _⟩ := animate_active sqrt env _ (h k (Nat.lt_succ_self k))
    rw [ticks_succ_right, a1, a2, a3, h1, h2, h3, positionAt_succ]
    refine ⟨rfl, ?_, rfl⟩
    rw [List.range_succ, List.map_append, List.append_assoc]
    rfl

theorem active_succ_iff (sqrt : ℚ → ℚ) (env : Env) (s : Sim) (k : ℕ) :
    (ticks sqrt env (k + 1) s).protonActive = true ↔
      (ticks sqrt env k s).protonActive = true ∧ ¬ exits sqrt env (positionAt s (k + 1)) := by
  constructor
  · intro h
    have hk := active_of_active_later sqrt env k (k + 1) s (Nat.le_succ k) h
    have htr := ticks_trajectory sqrt env s k
      (fun j hj => active_of_active_later sqrt env j k s (Nat.le_of_lt hj) hk)
    have ha := (animate_active sqrt env _ hk).2.2.2
    rw [ticks_succ_right] at h
    have := ha.1 h
    rw [htr.1, htr.2.2, positionAt_succ] at this
    exact ⟨hk, this⟩
  · rintro ⟨hk, hx⟩
    have htr := ticks_trajectory sqrt env s k
      (fun j hj => active_of_active_later sqrt env j k s (Nat.le_of_lt hj) hk)
    have ha := (animate_active sqrt env _ hk).2.2.2
    rw [ticks_succ_right]
    apply ha.2
    rw [htr.1, htr.2.2, positionAt_succ]
    exact hx

/-- From an Active state, the proton is still Active after `k` frames exactly when
none of the points `position + j * velocity`, `1 ≤ j ≤ k`, passes the exit test. -/
theorem active_iff_no_exit (sqrt : ℚ → ℚ) (env : Env) (s : Sim) (hs : s.protonActive = true)
    (k : ℕ) :
    (ticks sqrt env k s).protonActive = true ↔
      ∀ j, 1 ≤ j → j ≤ k → ¬ exits sqrt env (positionAt s j) := by
  induction k with
  | zero =>
    simp only [ticks, hs, true_iff]
    intro j h1 h0
    omega
  | succ k ih =>
    rw [active_succ_iff, ih]
    constructor
    · rintro ⟨h1, h2⟩ j hj1 hjk
      rcases Nat.lt_or_ge j (k + 1) with h | h
      · exact h1 j hj1 (Nat.lt_succ_iff.1 h)
      · have : j = k + 1 := by omega
        rw [this]; exact h2
    · intro h
      exact ⟨fun j hj1 hjk => h j hj1 (Nat.le_succ_of_le hjk), h (k + 1) (by omega) (le_refl _)⟩

theorem launch_active (sqrt : ℚ → ℚ) (s : Sim)
    (hv : Vector3.length sqrt ⟨s.inputVX, s.inputVY, s.inputVZ⟩ ≠ 0) :
    (launch sqrt s).1.protonActive = true := by
  rw [launch_of_length_ne_zero sqrt s hv]

theorem launch_trailPoints (sqrt : ℚ → ℚ) (s : Sim) : (launch sqrt s).1.trailPoints = [] := by
  by_cases hv : Vector3.length sqrt ⟨s.inputVX, s.inputVY, s.inputVZ⟩ = 0
  · rw [launch_of_length_zero sqrt s hv]
  · rw [launch_of_length_ne_zero sqrt s hv]

theorem reset_trailPoints (env : Env) (s : Sim) : (reset env s).trailPoints = [] := by
  simp [reset, updateProtonPositionFromInputs]

end StoppingPower

namespace StoppingPower

/-! ## Trajectory and exit: the claims -/

theorem launch_position_velocity (sqrt : ℚ → ℚ) (s : Sim) (x y z : ℚ)
    (hx : s.inputX = some x) (hy : s.inputY = some y) (hz : s.inputZ = some z)
    (hn : s.normalizeCheckbox = true)
    (hv : Vector3.length sqrt ⟨s.inputVX, s.inputVY, s.inputVZ⟩ ≠ 0) :
    (launch sqrt s).1.protonPosition = ⟨x, y, z⟩ ∧
    (launch sqrt s).1.protonVelocity =
      ⟨s.speedSlider * s.inputVX / Vector3.length sqrt ⟨s.inputVX, s.inputVY, s.inputVZ⟩,
       s.speedSlider * s.inputVY / Vector3.length sqrt ⟨s.inputVX, s.inputVY, s.inputVZ⟩,
       s.speedSlider * s.inputVZ / Vector3.length sqrt ⟨s.inputVX, s.inputVY, s.inputVZ⟩⟩ := by
  rw [launch_of_length_ne_zero sqrt s hv]
  refine ⟨update_position_of_some s x y z hx hy hz, ?_⟩
  simp only [hn, if_true, Vector3.normalize, if_neg hv, Vector3.divideScalar,
    Vector3.multiplyScalar, Vector3.mk.injEq]
  refine ⟨?_, ?_, ?_⟩ <;> ring

theorem exits_iff_distanceToSquared (sqrt : ℚ → ℚ) (env : Env) (p : Vector3)
    (h0 : 0 ≤ sqrt (p.distanceToSquared env.center))
    (hsq : sqrt (p.distanceToSquared env.center) * sqrt (p.distanceToSquared env.center) =
      p.distanceToSquared env.center)
    (hT : 0 ≤ (env.latticeSize : ℚ) * env.unitCellSize * 2) :
    exits sqrt env p ↔
      p.distanceToSquared env.center > ((env.latticeSize : ℚ) * env.unitCellSize * 2) ^ 2 := by
  unfold exits Vector3.distanceTo
  constructor
  · intro h
    rw [← hsq]
    nlinarith
  · intro h
    by_contra hcon
    have hle := not_lt.1 hcon
    rw [← hsq] at h
    nlinarith

/-- C5: after a launch that is not aborted, and with no launch or reset in between,
the simulator is Idle after `k` frames exactly when one of the first `k` updated
positions `start + j * velocity` lay farther from the bounding-box centre than
`2 * latticeSize * unitCellSize`; so it turns Idle on the first frame whose updated
position does, it is Active after every earlier frame, and from then on frames
change nothing (position and trail included).  Where the square root is exact, the
test is the same as squared distance `> (2 * latticeSize * unitCellSize) ^ 2`. -/
theorem idle_exactly_from_first_far_tick (sqrt : ℚ → ℚ) (env : Env) (s0 s : Sim)
    (hv : Vector3.length sqrt ⟨s0.inputVX, s0.inputVY, s0.inputVZ⟩ ≠ 0)
    (hs : s = (launch sqrt s0).1) :
    (∀ k, (ticks sqrt env k s).protonActive = false ↔
      ∃ j, 1 ≤ j ∧ j ≤ k ∧ exits sqrt env (positionAt s j)) ∧
    (∀ m, 1 ≤ m → (∀ j, 1 ≤ j → j < m → ¬ exits sqrt env (positionAt s j)) →
      exits sqrt env (positionAt s m) →
      (∀ j, j < m → (ticks sqrt env j s).protonActive = true) ∧
      (∀ j, j ≤ m → (ticks sqrt env j s).protonPosition = positionAt s j) ∧
      (ticks sqrt env m s).protonActive = false ∧
      (∀ k, m ≤ k → ticks sqrt env k s = ticks sqrt env m s)) ∧
    (∀ k, (ticks sqrt env k s).protonActive = false →
      animate sqrt env (ticks sqrt env k s) = ticks sqrt env k s) ∧
    (∀ p, 0 ≤ sqrt (p.distanceToSquared env.center) →
      sqrt (p.distanceToSquared env.center) * sqrt (p.distanceToSquared env.center) =
        p.distanceToSquared env.center →
      0 ≤ (env.latticeSize : ℚ) * env.unitCellSize * 2 →
      (exits sqrt env p ↔ p.distanceToSquared env.center >
        ((env.latticeSize : ℚ) * env.unitCellSize * 2) ^ 2)) := by
  have hact : s.protonActive = true := by rw [hs]; exact launch_active sqrt s0 hv
  have key := active_iff_no_exit sqrt env s hact
  refine ⟨?_, ?_, fun k hk => animate_idle sqrt env _ hk,
    fun p h0 hsq hT => exits_iff_distanceToSquared sqrt env p h0 hsq hT⟩
  · intro k
    rw [← Bool.not_eq_true, key k]
    push_neg
    rfl
  · intro m hm hbefore hexit
    have hactive : ∀ j, j < m → (ticks sqrt env j s).protonActive = true := by
      intro j hj
      rw [key j]
      intro i hi1 hij
      exact hbefore i hi1 (lt_of_le_of_lt hij hj)
    have hidle : (ticks sqrt env m s).protonActive = false := by
      rw [← Bool.not_eq_true, key m]
      intro h
      exact h m hm (le_refl m) hexit
    refine ⟨hactive, ?_, hidle, fun k hk => ticks_after_idle sqrt env m k s hk hidle⟩
    intro j hj
    exact (ticks_trajectory sqrt env s j (fun i hi => hactive i (lt_of_lt_of_le hi hj))).1

end StoppingPower

namespace StoppingPower

theorem readyUpward_length (speed : ℚ) :
    Vector3.length Rat.sqrt
      ⟨(readyUpward speed).inputVX, (readyUpward speed).inputVY, (readyUpward speed).inputVZ⟩ =
      1 := by
  simp only [Vector3.length, Vector3.lengthSq, readyUpward]
  norm_num [rat_sqrt_one]

theorem readyUpward_positionAt (speed : ℚ) (j : ℕ) :
    positionAt (launch Rat.sqrt (readyUpward speed)).1 j = ⟨1, 1, 1 + j * speed⟩ := by
  have hv : Vector3.length Rat.sqrt
      ⟨(readyUpward speed).inputVX, (readyUpward speed).inputVY, (readyUpward speed).inputVZ⟩ ≠
      0 := by
    rw [readyUpward_length]; norm_num
  obtain ⟨hp, hvel⟩ := launch_position_velocity Rat.sqrt (readyUpward speed) 1 1 1 rfl rfl rfl
    rfl hv
  rw [readyUpward_length] at hvel
  simp only [positionAt, hp, hvel, Vector3.add, Vector3.multiplyScalar, Vector3.mk.injEq]
  simp only [readyUpward]
  refine ⟨?_, ?_, ?_⟩ <;> ring

/-- Witness for C5: launch from `(1, 1, 1)` along `(0, 0, 1)` at speed `21`; the
first updated position `(1, 1, 22)` is at distance `21 > 20` from the centre, and the
simulator is Idle after the first frame and unchanged by the second. -/
theorem idle_exactly_from_first_far_tick_witness :
    Vector3.length Rat.sqrt ⟨(0 : ℚ), 0, 1⟩ ≠ 0 ∧
    (ticks Rat.sqrt referenceEnv 0 (launch Rat.sqrt (readyUpward 21)).1).protonActive = true ∧
    (ticks Rat.sqrt referenceEnv 1 (launch Rat.sqrt (readyUpward 21)).1).protonActive = false ∧
    ticks Rat.sqrt referenceEnv 2 (launch Rat.sqrt (readyUpward 21)).1 =
      ticks Rat.sqrt referenceEnv 1 (launch Rat.sqrt (readyUpward 21)).1 := by
  have hlen := readyUpward_length 21
  have hv : Vector3.length Rat.sqrt ⟨(0 : ℚ), 0, 1⟩ ≠ 0 := by
    have : Vector3.length Rat.sqrt ⟨(0 : ℚ), 0, 1⟩ = 1 := hlen
    rw [this]; norm_num
  have hsq : Rat.sqrt 441 = 21 := by
    rw [show (441 : ℚ) = 21 * 21 by norm_num]
    exact rat_sqrt_sq _ (by norm_num)
  have hexit : exits Rat.sqrt referenceEnv (positionAt (launch Rat.sqrt (readyUpward 21)).1 1) := by
    rw [readyUpward_positionAt]
    simp only [exits, Vector3.distanceTo, Vector3.distanceToSquared, referenceEnv]
    norm_num [hsq]
  have h := (idle_exactly_from_first_far_tick Rat.sqrt referenceEnv (readyUpward 21)
    (launch Rat.sqrt (readyUpward 21)).1 hv rfl).2.1 1 (le_refl 1)
    (fun j h1 h2 => by omega) hexit
  exact ⟨hv, h.1 0 (by norm_num), h.2.2.1, h.2.2.2 2 (by norm_num)⟩

end StoppingPower

namespace StoppingPower

/-! ## Trail length: the claims -/

theorem onResponse_trailPoints (o : Outcome) (s : Sim) :
    (onResponse o s).trailPoints = s.trailPoints := by
  unfold onResponse
  split
  · split <;> rfl
  · rfl

theorem animate_trailPoints_length (sqrt : ℚ → ℚ) (env : Env) (s : Sim) :
    (animate sqrt env s).trailPoints.length =
      if s.protonActive then s.trailPoints.length + 1 else s.trailPoints.length := by
  by_cases h : s.protonActive = true
  · rw [(animate_active sqrt env s h).2.1, if_pos h]; simp
  · have h' : s.protonActive = false := by simpa using h
    rw [animate_idle sqrt env s h', h']; simp

/-- Events other than launch and reset never shorten the trail. -/
theorem step_trailPoints_length_le (sqrt : ℚ → ℚ) (env : Env) (s : Sim) (c : Cmd)
    (h1 : c ≠ Cmd.launch) (h2 : c ≠ Cmd.reset) :
    s.trailPoints.length ≤ (step sqrt env s c).trailPoints.length := by
  cases c with
  | editX v => simp [step, update_trailPoints]
  | editY v => simp [step, update_trailPoints]
  | editZ v => simp [step, update_trailPoints]
  | editVelocity vx vy vz => simp [step]
  | setNormalize b => simp [step]
  | setSpeed v => simp [step]
  | launch => exact absurd rfl h1
  | tick =>
    simp only [step, animate_trailPoints_length]
    split <;> omega
  | reset => exact absurd rfl h2
  | response o => simp [step, onResponse_trailPoints]

theorem stepCounting_invariant (sqrt : ℚ → ℚ) (env : Env) (sk : Sim × ℕ) (c : Cmd)
    (h : sk.1.trailPoints.length = sk.2) :
    (stepCounting sqrt env sk c).1.trailPoints.length = (stepCounting sqrt env sk c).2 := by
  cases c with
  | editX v => simpa [stepCounting, step, update_trailPoints] using h
  | editY v => simpa [stepCounting, step, update_trailPoints] using h
  | editZ v => simpa [stepCounting, step, update_trailPoints] using h
  | editVelocity vx vy vz => simpa [stepCounting, step] using h
  | setNormalize b => simpa [stepCounting, step] using h
  | setSpeed v => simpa [stepCounting, step] using h
  | launch => simp [stepCounting, step, launch_trailPoints]
  | tick =>
    simp only [stepCounting, step, animate_trailPoints_length, h]
  | reset => simp [stepCounting, step, reset_trailPoints]
  | response o => simpa [stepCounting, step, onResponse_trailPoints] using h

theorem foldl_stepCounting (sqrt : ℚ → ℚ) (env : Env) (cs : List Cmd) (sk : Sim × ℕ)
    (h : sk.1.trailPoints.length = sk.2) :
    (cs.foldl (stepCounting sqrt env) sk).1 = cs.foldl (step sqrt env) sk.1 ∧
    (cs.foldl (stepCounting sqrt env) sk).1.trailPoints.length =
      (cs.foldl (stepCounting sqrt env) sk).2 := by
  induction cs generalizing sk with
  | nil => exact ⟨rfl, h⟩
  | cons c cs ih =>
    simp only [List.foldl_cons]
    exact ih (stepCounting sqrt env sk c) (stepCounting_invariant sqrt env sk c h)

theorem initial_trailPoints (env : Env) (b : Bool) (v : ℚ) (d1 d2 : Display) :
    (Sim.initial env b v d1 d2).trailPoints = [] := by
  simp [Sim.initial, update_trailPoints]

theorem run_append (sqrt : ℚ → ℚ) (env : Env) (s : Sim) (cs ds : List Cmd) :
    run sqrt env s (cs ++ ds) = run sqrt env (run sqrt env s cs) ds := by
  simp [run, List.foldl_append]

/-- The fields after the user has typed position `(101, 1, 1)` and velocity
`(1, 0, 0)`. -/
theorem farStartEdits_fields (sqrt : ℚ → ℚ) (env : Env) (s : Sim) :
    (run sqrt env s farStartEdits).inputX = some 101 ∧
    (run sqrt env s farStartEdits).inputY = some 1 ∧
    (run sqrt env s farStartEdits).inputZ = some 1 ∧
    (run sqrt env s farStartEdits).inputVX = 1 ∧
    (run sqrt env s farStartEdits).inputVY = 0 ∧
    (run sqrt env s farStartEdits).inputVZ = 0 ∧
    (run sqrt env s farStartEdits).normalizeCheckbox = s.normalizeCheckbox ∧
    (run sqrt env s farStartEdits).speedSlider = s.speedSlider := by
  have hX : ∀ t : Sim, (updateProtonPositionFromInputs t).inputX = t.inputX :=
    fun t => (update_inputs t).1
  have hY : ∀ t : Sim, (updateProtonPositionFromInputs t).inputY = t.inputY :=
    fun t => (update_inputs t).2.1
  have hZ : ∀ t : Sim, (updateProtonPositionFromInputs t).inputZ = t.inputZ :=
    fun t => (update_inputs t).2.2
  have hN : ∀ t : Sim, (updateProtonPositionFromInputs t).normalizeCheckbox =
      t.normalizeCheckbox := fun t => (update_inputV t).2.2.2.1
  have hS : ∀ t : Sim, (updateProtonPositionFromInputs t).speedSlider = t.speedSlider :=
    fun t => (update_inputV t).2.2.2.2
  simp only [run, farStartEdits, List.foldl_cons, List.foldl_nil, step, hX, hY, hZ, hN, hS,
    and_self]

theorem initial_flags (env : Env) (b : Bool) (v : ℚ) (d1 d2 : Display) :
    (Sim.initial env b v d1 d2).normalizeCheckbox = b ∧
    (Sim.initial env b v d1 d2).speedSlider = v := by
  unfold Sim.initial
  exact ⟨(update_inputV _).2.2.2.1, (update_inputV _).2.2.2.2⟩

/-- C7 (as stated, refuted): in the program (unit size 2, lattice size 5), launching
from `(101, 1, 1)` with velocity `(1, 0, 0)` puts the proton beyond the exit distance
on the first frame; after two frames the trail has length 1 although 2 frames have
elapsed since the launch, and after one frame and a reset the trail is empty
although 1 frame has elapsed since the launch. -/
theorem trail_length_differs_from_ticks_since_launch :
    ∃ env, mkEnv unitCellSize latticeSize = some env ∧
      (run Rat.sqrt env (Sim.initial env false 1 Display.empty Display.empty)
        launchTickTick).trailPoints.length = 1 ∧
      ticksSinceLaunch launchTickTick = 2 ∧
      (run Rat.sqrt env (Sim.initial env false 1 Display.empty Display.empty)
        launchTickReset).trailPoints.length = 0 ∧
      ticksSinceLaunch launchTickReset = 1 := by
  have hsq : Rat.sqrt 10201 = 101 := by
    rw [show (10201 : ℚ) = 101 * 101 by norm_num]
    exact rat_sqrt_sq _ (by norm_num)
  obtain ⟨fX, fY, fZ, fVX, fVY, fVZ, fN, fS⟩ := farStartEdits_fields Rat.sqrt referenceEnv
    (Sim.initial referenceEnv false 1 Display.empty Display.empty)
  rw [(initial_flags referenceEnv false 1 Display.empty Display.empty).1] at fN
  rw [(initial_flags referenceEnv false 1 Display.empty Display.empty).2] at fS
  obtain ⟨s1, hs1⟩ : ∃ t, t = run Rat.sqrt referenceEnv
    (Sim.initial referenceEnv false 1 Display.empty Display.empty) farStartEdits := ⟨_, rfl⟩
  rw [← hs1] at fX fY fZ fVX fVY fVZ fN fS
  have hlen : Vector3.length Rat.sqrt ⟨s1.inputVX, s1.inputVY, s1.inputVZ⟩ = 1 := by
    rw [fVX, fVY, fVZ]
    simp only [Vector3.length, Vector3.lengthSq]
    norm_num [rat_sqrt_one]
  have hv : Vector3.length Rat.sqrt ⟨s1.inputVX, s1.inputVY, s1.inputVZ⟩ ≠ 0 := by
    rw [hlen]; norm_num
  have hact := launch_active Rat.sqrt s1 hv
  have hpos : positionAt (launch Rat.sqrt s1).1 1 = ⟨102, 1, 1⟩ := by
    rw [positionAt, launch_of_length_ne_zero Rat.sqrt s1 hv]
    simp only [update_position_of_some s1 101 1 1 fX fY fZ, fN, fS, fVX, fVY, fVZ,
      Vector3.add, Vector3.multiplyScalar, Vector3.mk.injEq]
    norm_num
  have hexit : exits Rat.sqrt referenceEnv (positionAt (launch Rat.sqrt s1).1 1) := by
    rw [hpos]
    simp only [exits, Vector3.distanceTo, Vector3.distanceToSquared, referenceEnv]
    norm_num [hsq]
  have hidle : (ticks Rat.sqrt referenceEnv 1 (launch Rat.sqrt s1).1).protonActive = false := by
    rw [← Bool.not_eq_true, active_iff_no_exit Rat.sqrt referenceEnv _ hact]
    intro h
    exact h 1 (le_refl 1) (le_refl 1) hexit
  have htrail := (ticks_trajectory Rat.sqrt referenceEnv (launch Rat.sqrt s1).1 1
    (fun j hj => by
      have : j = 0 := by omega
      rw [this]; exact hact)).2.1
  rw [launch_trailPoints] at htrail
  refine ⟨referenceEnv, mkEnv_reference, ?_, by simp [ticksSinceLaunch, launchTickTick,
    farStartEdits], ?_, by simp [ticksSinceLaunch, launchTickReset, farStartEdits]⟩
  · rw [launchTickTick, run_append, ← hs1]
    have e : run Rat.sqrt referenceEnv s1 [Cmd.launch, Cmd.tick, Cmd.tick] =
        ticks Rat.sqrt referenceEnv 2 (launch Rat.sqrt s1).1 := rfl
    rw [e, ticks_after_idle Rat.sqrt referenceEnv 1 2 _ (by norm_num) hidle, htrail]
    simp
  · rw [launchTickReset, run_append, ← hs1]
    have e : run Rat.sqrt referenceEnv s1 [Cmd.launch, Cmd.tick, Cmd.reset] =
        reset referenceEnv (animate Rat.sqrt referenceEnv (launch Rat.sqrt s1).1) := rfl
    rw [e, reset_trailPoints]
    rfl

/-- C7 (amended): in every state reachable from the initial state by user edits,
launches, frames, resets and responses, the trail's length equals the number of
frames that found the simulator Active since the most recent click on launch or
reset (since start-up if there was none); no event other than a launch or a reset
shortens the trail, so it becomes empty only on a launch or a reset, and both
leave it empty. -/
theorem trail_length_counts_active_ticks (sqrt : ℚ → ℚ) (env : Env) (b : Bool) (v : ℚ)
    (d1 d2 : Display) (cs : List Cmd) :
    (runCounting sqrt env (Sim.initial env b v d1 d2) cs).1 =
      run sqrt env (Sim.initial env b v d1 d2) cs ∧
    (run sqrt env (Sim.initial env b v d1 d2) cs).trailPoints.length =
      (runCounting sqrt env (Sim.initial env b v d1 d2) cs).2 ∧
    (∀ (s : Sim) (c : Cmd), c ≠ Cmd.launch → c ≠ Cmd.reset →
      s.trailPoints.length ≤ (step sqrt env s c).trailPoints.length) ∧
    (∀ (s : Sim) (c : Cmd), s.trailPoints ≠ [] → (step sqrt env s c).trailPoints = [] →
      c = Cmd.launch ∨ c = Cmd.reset) ∧
    (∀ s : Sim, (step sqrt env s Cmd.launch).trailPoints = [] ∧
      (step sqrt env s Cmd.reset).trailPoints = []) := by
  have h := foldl_stepCounting sqrt env cs (Sim.initial env b v d1 d2, 0)
    (by simp [initial_trailPoints])
  refine ⟨h.1, ?_, step_trailPoints_length_le sqrt env, ?_, ?_⟩
  · have h2 := h.2
    rw [h.1] at h2
    exact h2
  · intro s c hne hempty
    by_contra hc
    push_neg at hc
    have hle := step_trailPoints_length_le sqrt env s c hc.1 hc.2
    rw [hempty] at hle
    have : s.trailPoints.length = 0 := by simpa using hle
    exact hne (List.length_eq_zero.1 this)
  · intro s
    exact ⟨launch_trailPoints sqrt s, reset_trailPoints env s⟩

end StoppingPower
